import Mathlib

/-!
Verification of the dreemz-stats-categories pipeline against its
natural-language specification.

The development shallowly embeds the Python sources:
* `groq_service.py` (`GroqService`: `normalize_dream`, `check_similarity`,
  `create_taxonomy`, `fallback_taxonomy`, `call_api`),
* `dream_grouping_service.py` (`DreamGroupingService`: cached
  `normalize_dream`, cached `check_similarity`, `save_progress`),
* `process_all_dreams.py` (`group_similar_dreams`: exact-match pass and
  windowed merge pass),
* `step1_normalize.py` (checkpointed batch normalization with resume).

The external text-generation oracle is modelled as a function argument:
a successful completion is `Except.ok response`, a raised exception is
`Except.error ()`.  Python string operations are reproduced by the
`py*` helpers below (ASCII case mapping, Python `str.strip` semantics,
`str.split`, `in`, and the specific regular expressions the source uses).
-/

/-! ## Python string primitives -/

/-- Characters treated as whitespace by Python `str.strip()` / `\s` (ASCII). -/
def pyWsChar (c : Char) : Bool :=
  c == ' ' || c == '\t' || c == '\n' || c == '\r' || c == '\x0b' || c == '\x0c'

/-- Python `s.strip()`: drop whitespace from both ends. -/
def pyStripWs (s : String) : String :=
  ⟨((s.data.dropWhile pyWsChar).reverse.dropWhile pyWsChar).reverse⟩

/-- Python `s.strip(chars)`: drop any of the given characters from both ends. -/
def pyStripChars (cs : List Char) (s : String) : String :=
  ⟨((s.data.dropWhile (fun c => cs.contains c)).reverse.dropWhile
      (fun c => cs.contains c)).reverse⟩

/-- Membership of `needle` as a contiguous run of characters in `hay`:
Python's `needle in hay`. -/
def strContains (hay needle : String) : Bool :=
  go needle.data hay.data
where
  go (needle : List Char) : List Char → Bool
    | [] => needle.isEmpty
    | c :: rest => needle.isPrefixOf (c :: rest) || go needle rest

/-- Python `s.lower()` restricted to the ASCII case mapping (the corpus
scripts are Hebrew and English; Hebrew has no case). -/
def pyToLower (s : String) : String :=
  ⟨s.data.map Char.toLower⟩

/-- Python `s.startswith(p)`. -/
def startsWithS (s p : String) : Bool :=
  p.data.isPrefixOf s.data

/-- Python `s.replace(pat, sub)` for a nonempty `pat`: non-overlapping
left-to-right replacement.  The fuel argument starts at the length of the
scanned list, which suffices because every step consumes at least one
character. -/
def replaceAux (pat sub : List Char) : Nat → List Char → List Char
  | 0, l => l
  | _ + 1, [] => []
  | fuel + 1, c :: rest =>
    if pat.isPrefixOf (c :: rest) && !pat.isEmpty then
      sub ++ replaceAux pat sub fuel ((c :: rest).drop pat.length)
    else c :: replaceAux pat sub fuel rest

/-- Python `s.replace(pat, sub)`. -/
def replaceS (s pat sub : String) : String :=
  ⟨replaceAux pat.data sub.data s.data.length s.data⟩

/-- Suffix after the last occurrence of `sep`. -/
def lastSplitAux (sep : List Char) : List Char → Option (List Char)
  | [] => none
  | c :: rest =>
    match lastSplitAux sep rest with
    | some suf => some suf
    | none =>
      if sep.isPrefixOf (c :: rest) then some ((c :: rest).drop sep.length)
      else none

/-- Python `s.split(sep)[-1]` for the separators the source uses (single
characters and label strings with no self-overlapping border): the suffix
after the last occurrence of `sep`, or `s` when `sep` does not occur. -/
def lastSplit (s sep : String) : String :=
  match lastSplitAux sep.data s.data with
  | some suf => ⟨suf⟩
  | none => s

/-- Python `s.split(d)` for a one-character separator. -/
def splitOnCharAux (d : Char) : List Char → List Char → List String
  | [], acc => [⟨acc.reverse⟩]
  | c :: rest, acc =>
    if c == d then ⟨acc.reverse⟩ :: splitOnCharAux d rest []
    else splitOnCharAux d rest (c :: acc)

/-- Python `s.split(d)` for a one-character separator. -/
def splitOnChar (d : Char) (s : String) : List String :=
  splitOnCharAux d s.data []

/-- Lexicographic code-point comparison, Python string `<=`. -/
def strLeChars : List Char → List Char → Bool
  | [], _ => true
  | _ :: _, [] => false
  | a :: as, b :: bs =>
    if a.toNat < b.toNat then true
    else if b.toNat < a.toNat then false
    else strLeChars as bs

/-- Python string `<=`. -/
def strLe (a b : String) : Bool :=
  strLeChars a.data b.data

/-- Characters with code points in the Hebrew block tested by the source:
`ord(c) > 1487 and ord(c) < 1515`. -/
def isHebrewChar (c : Char) : Bool :=
  decide (1487 < c.toNat) && decide (c.toNat < 1515)

/-- `any(ord(c) > 1487 and ord(c) < 1515 for c in s)`. -/
def hasHebrew (s : String) : Bool :=
  s.data.any isHebrewChar

/-- `re.findall(r'D([^D]+)D', s)` for a one-character delimiter `D`
(`*` for italics, `"` for quotes in the source): non-overlapping
left-to-right matches, each capture nonempty and delimiter-free.
The scan runs with an optional open capture buffer. -/
def findDelimAux (d : Char) : List Char → Option (List Char) → List String
  | [], _ => []
  | c :: rest, none =>
    if c == d then findDelimAux d rest (some [])
    else findDelimAux d rest none
  | c :: rest, some buf =>
    if c == d then
      if buf.isEmpty then findDelimAux d rest (some [])
      else ⟨buf.reverse⟩ :: findDelimAux d rest none
    else findDelimAux d rest (some (c :: buf))

/-- `re.findall(r'D([^D]+)D', s)`. -/
def findDelim (d : Char) (s : String) : List String :=
  findDelimAux d s.data none

/-- `re.sub(r'\([^)]+\)', '', s)`: delete every nonempty parenthesised
group (the group's body may itself contain `(`). -/
def removeParensAux : List Char → Option (List Char) → List Char
  | [], none => []
  | [], some buf => '(' :: buf.reverse
  | c :: rest, none =>
    if c == '(' then removeParensAux rest (some [])
    else c :: removeParensAux rest none
  | c :: rest, some buf =>
    if c == ')' then
      if buf.isEmpty then '(' :: ')' :: removeParensAux rest none
      else removeParensAux rest none
    else removeParensAux rest (some (c :: buf))

/-- `re.sub(r'\([^)]+\)', '', s)`. -/
def removeParens (s : String) : String :=
  ⟨removeParensAux s.data none⟩

/-! ## GroqService (`groq_service.py`) -/

/-- The oracle: a prompt either yields a completion or raises. -/
abbrev Oracle := String → Except Unit String

/-- `GroqService.call_api`: any exception is caught and turned into `""`
(the method prints the error and returns the empty string).  The prompt
construction is injective in the dream title, so the oracle is keyed by
the title directly. -/
def gsCallApi (oracle : Oracle) (prompt : String) : String :=
  match oracle prompt with
  | .ok s => s
  | .error _ => ""

/-- Python truthiness/`== "null"` test at the top of the response handling:
`if not response or response == "null" or response.strip() == ""`. -/
def emptyResp (r : String) : Bool :=
  r == "" || r == "null" || pyStripWs r == ""

/-- The deterministic English fallback of `GroqService.normalize_dream`
(lines 104–111): the lower-cased stripped title, `"to "`-prefixed when
that prefix is absent. -/
def gsFallback (title : String) : String :=
  let clean := pyStripWs (pyToLower title)
  if startsWithS clean "to " then clean else "to " ++ clean

/-- Label-stripping loop of `GroqService.normalize_dream` (lines 118–120). -/
def stripLabels (r : String) : String :=
  ["to normalized:", "normalized:", "english:", "translation:", "simplified:"].foldl
    (fun r p => if strContains r p then pyStripWs (lastSplit r p) else r) r

/-- `GroqService.normalize_dream`, split into the guard/fallback layer and
the response-cleaning pipeline (lines 67–204 of `groq_service.py`),
as a pure function of the title and the `call_api` response. -/
def normalizeGS (title response : String) : Option String :=
  if title == "" || pyStripWs title == "" then none
  else
    let isHeb := hasHebrew title
    if emptyResp response then
      if !isHeb then some (gsFallback title) else none
    else
      let r := pyToLower response
      let r := stripLabels r
      let r := pyStripChars ['"'] r
      let r := pyStripChars [Char.ofNat 39] r
      let r := if strContains r "→" then pyStripWs (lastSplit r "→") else r
      let r := if strContains r "–" then pyStripWs (lastSplit r "–") else r
      let r := pyStripWs (pyStripChars ['*'] r)
      let r := match (findDelim '*' r).filter (fun s => !hasHebrew s) with
               | [] => r
               | s :: _ => s
      let r := match (findDelim '"' r).filter (fun s => !hasHebrew s) with
               | [] => r
               | s :: _ => s
      let r := if strContains r "=" then pyStripWs (lastSplit r "=") else r
      let r := pyToLower (pyStripChars ['*'] (pyStripChars [Char.ofNat 39] (pyStripChars ['"'] r)))
      let r := pyStripWs (removeParens r)
      let r :=
        if r ≠ "" then
          let r := replaceS r "to to " "to "
          if startsWithS r "to " then r
          else if startsWithS r "become " then "to " ++ r
          else if startsWithS r "be " then "to " ++ r
          else if startsWithS r "get " then "to " ++ r
          else if startsWithS r "buy " then "to " ++ r
          else if startsWithS r "have " then "to " ++ r
          else if !(startsWithS r "a " || startsWithS r "the ") then "to " ++ r
          else r
        else r
      let r := pyStripChars ['.'] (pyStripWs r)
      if r ≠ "" && hasHebrew r then some ("to " ++ pyToLower title)
      else if r ≠ "" && decide (r.length > 2) then some r
      else
        let ct := pyStripWs (pyToLower title)
        if startsWithS ct "to " then some ct else some ("to " ++ ct)

/-- `GroqService.normalize_dream` driven by the oracle through `call_api`. -/
def gsNormalizeDream (oracle : Oracle) (title : String) : Option String :=
  normalizeGS title (gsCallApi oracle title)

/-- `GroqService.check_similarity` as a pure function of the two phrases
and the `call_api` response. -/
def gsCheckSimilarity (phrase1 phrase2 response : String) : Bool :=
  if phrase1 == phrase2 then true
  else
    let rl := pyToLower response
    strContains rl "yes" && !strContains rl "no"

/-- `GroqService.check_similarity` with the oracle, also counting oracle
invocations. -/
def gsCheckSimilarityC (oracle : Oracle) (phrase1 phrase2 : String) : Bool × Nat :=
  if phrase1 == phrase2 then (true, 0)
  else (gsCheckSimilarity phrase1 phrase2 (gsCallApi oracle (phrase1 ++ "|" ++ phrase2)), 1)

/-- A 3-level taxonomy record. -/
structure Taxonomy where
  level1 : String
  level2 : String
  level3 : String
deriving DecidableEq, Repr

/-- Character class `[A-Za-z\s]` of the taxonomy pattern. -/
def taxClassChar (c : Char) : Bool :=
  c.isAlpha || pyWsChar c

/-- Attempt to match `([A-Za-z\s]+)\|([A-Za-z\s]+)\|([A-Za-z\s]+)` at the
start of the character list (greedy runs ending at the literal bars). -/
def taxMatchAt (l : List Char) : Option (String × String × String) :=
  let r1 := l.takeWhile taxClassChar
  if r1.isEmpty then none
  else
    match l.drop r1.length with
    | '|' :: l2 =>
      let r2 := l2.takeWhile taxClassChar
      if r2.isEmpty then none
      else
        match l2.drop r2.length with
        | '|' :: l3 =>
          let r3 := l3.takeWhile taxClassChar
          if r3.isEmpty then none else some (⟨r1⟩, ⟨r2⟩, ⟨r3⟩)
        | _ => none
    | _ => none

/-- `re.search` for the taxonomy pattern: leftmost match. -/
def taxSearch : List Char → Option (String × String × String)
  | [] => none
  | c :: rest =>
    match taxMatchAt (c :: rest) with
    | some m => some m
    | none => taxSearch rest

/-- `GroqService.fallback_taxonomy`: the ordered keyword table. -/
def fallbackTaxonomyGS (phrase : String) : Taxonomy :=
  let p := pyToLower phrase
  if ["youtube", "tiktok", "instagram", "influencer"].any (strContains p) then
    ⟨"Career", "Digital Creator", "Social Media"⟩
  else if ["doctor", "lawyer", "engineer", "teacher"].any (strContains p) then
    ⟨"Career", "Professional", "Traditional"⟩
  else if ["rich", "money", "millionaire"].any (strContains p) then
    ⟨"Financial", "Wealth", "Personal"⟩
  else if ["travel", "visit", "trip"].any (strContains p) then
    ⟨"Travel", "Adventure", "Exploration"⟩
  else if ["marry", "married", "wedding", "love"].any (strContains p) then
    ⟨"Relationships", "Romance", "Marriage"⟩
  else if ["fit", "gym", "weight", "muscle"].any (strContains p) then
    ⟨"Health", "Fitness", "Physical"⟩
  else ⟨"Personal", "Goals", "General"⟩

/-- `GroqService.create_taxonomy` as a pure function of the phrase and the
`call_api` response. -/
def createTaxonomyGS (phrase response : String) : Taxonomy :=
  if response ≠ "" then
    match taxSearch response.data with
    | some (a, b, c) => ⟨pyStripWs a, pyStripWs b, pyStripWs c⟩
    | none =>
      if ["career", "personal", "health", "travel"].any
          (strContains (pyToLower response)) then
        let lines := splitOnChar '\n' response
        if decide (lines.length ≥ 3) then
          ⟨pyStripWs (lines.getD 0 ""), pyStripWs (lines.getD 1 ""),
           pyStripWs (lines.getD 2 "")⟩
        else fallbackTaxonomyGS phrase
      else fallbackTaxonomyGS phrase
  else fallbackTaxonomyGS phrase

/-- `GroqService.create_taxonomy` driven by the oracle through `call_api`. -/
def gsCreateTaxonomy (oracle : Oracle) (phrase : String) : Taxonomy :=
  createTaxonomyGS phrase (gsCallApi oracle phrase)

/-! ## DreamGroupingService (`dream_grouping_service.py`) -/

/-- Association-list lookup used for the in-run caches (`dict` access). -/
def cacheLookup {α : Type} (cache : List (String × α)) (key : String) : Option α :=
  (cache.find? (fun e => e.1 == key)).map (·.2)

/-- The base response-cleaning of `DreamGroupingService.normalize_dream`
(lines 63–66): strip whitespace, strip `"'.,!` from both ends, lower-case. -/
def dgCleanBase (response : String) : String :=
  pyToLower (pyStripChars ['"', Char.ofNat 39, '.', ',', '!'] (pyStripWs response))

/-- The `normalized[3:]` slice dropping one leading `"to "`. -/
def dropS (s : String) (n : Nat) : String := ⟨s.data.drop n⟩

/-- Full cleaning of `DreamGroupingService.normalize_dream`: the base
cleaning followed by the removal of one leading `"to "`. -/
def dgClean (response : String) : String :=
  let n := dgCleanBase response
  if startsWithS n "to " then dropS n 3 else n

/-- `DreamGroupingService.normalize_dream`: consult the cache, handle the
non-Hebrew shortcut, otherwise call the oracle (`get_completion`); on
success cache the cleaned phrase, on exception fall back to the
lower-cased title without caching.  Returns the result, the updated
cache, and the number of oracle invocations (0 or 1). -/
def dgNormalize (oracle : Oracle) (cache : List (String × String))
    (title : String) : String × List (String × String) × Nat :=
  match cacheLookup cache title with
  | some v => (v, cache, 0)
  | none =>
    if !hasHebrew title then
      let n := pyStripWs (pyToLower title)
      (n, (title, n) :: cache, 0)
    else
      match oracle title with
      | .ok resp =>
        let n := dgClean resp
        (n, (title, n) :: cache, 1)
      | .error _ => (pyToLower title, cache, 1)

/-- Two successive calls of `DreamGroupingService.normalize_dream` on the
same title in one run (cache threaded through): both results and the
total number of oracle invocations. -/
def dgNormalizeTwice (oracle : Oracle) (title : String) : String × String × Nat :=
  let r1 := dgNormalize oracle [] title
  let r2 := dgNormalize oracle r1.2.1 title
  (r1.1, r2.1, r1.2.2 + r2.2.2)

/-- `tuple(sorted([phrase1, phrase2]))`: the unordered cache key. -/
def dgSimKey (phrase1 phrase2 : String) : String × String :=
  if strLe phrase1 phrase2 then (phrase1, phrase2) else (phrase2, phrase1)

/-- Lookup in the similarity cache keyed by unordered pairs. -/
def simCacheLookup (cache : List ((String × String) × Bool))
    (key : String × String) : Option Bool :=
  (cache.find? (fun e => e.1 == key)).map (·.2)

/-- `DreamGroupingService.check_similarity`: cache probe, byte-equality
shortcut (cached as `true`), otherwise oracle call parsed as
`response.strip().lower().startswith('y')`; an exception yields `false`
and is not cached.  The last component counts oracle invocations. -/
def dgCheckSimilarity (oracle : String → String → Except Unit String)
    (cache : List ((String × String) × Bool)) (phrase1 phrase2 : String) :
    Bool × List ((String × String) × Bool) × Nat :=
  let key := dgSimKey phrase1 phrase2
  match simCacheLookup cache key with
  | some b => (b, cache, 0)
  | none =>
    if phrase1 == phrase2 then (true, (key, true) :: cache, 0)
    else
      match oracle phrase1 phrase2 with
      | .ok resp => let res := startsWithS (pyToLower (pyStripWs resp)) "y"
                    (res, (key, res) :: cache, 1)
      | .error _ => (false, cache, 1)

/-! ## Checkpoint writes (`save_progress`, `step1_normalize.py` writes)

`save_progress` opens the target file with mode `'w'` (truncating it) and
streams the JSON dump into it; there is no temporary file and no rename.
The filesystem is an association list from path to content; a crash can
happen before the open, or after the truncating open with any prefix of
the data written. -/

/-- A dream cluster as built by `process_all_dreams.py`: id, representative
phrase, member post-ids, and the maintained `member_count`. -/
structure Cluster where
  id : String
  representative : String
  members : List String
  member_count : Nat
deriving DecidableEq, Repr

instance : Inhabited Cluster := ⟨⟨"", "", [], 0⟩⟩

/-- Modelled shape of the `json.dump` output of `save_progress`:
a rendering that mentions every group and every grouped id. -/
def quoteStr (s : String) : String := "\"" ++ s ++ "\""

/-- JSON-style list rendering. -/
def renderList (xs : List String) : String :=
  "[" ++ String.intercalate ", " xs ++ "]"

/-- Rendering of one group record. -/
def renderCluster (c : Cluster) : String :=
  "\x7b\"id\": " ++ quoteStr c.id ++ ", \"representative\": " ++
    quoteStr c.representative ++ ", \"members\": " ++
    renderList (c.members.map quoteStr) ++ ", \"member_count\": " ++
    toString c.member_count ++ "\x7d"

/-- The serialized progress payload of `save_progress`: the entire group
collection, the entire grouped-id set, and the timestamp. -/
def serializeProgress (groups : List Cluster) (groupedIds : List String)
    (timestamp : String) : String :=
  "\x7b\"groups\": " ++ renderList (groups.map renderCluster) ++
    ", \"grouped_ids\": " ++ renderList (groupedIds.map quoteStr) ++
    ", \"timestamp\": " ++ timestamp ++ "\x7d"

/-- The filesystem: mapping from path to file content. -/
def Fs := List (String × String)

/-- Read a file. -/
def fsRead (fs : Fs) (path : String) : Option String :=
  (List.find? (fun e => e.1 == path) fs).map (·.2)

/-- Write (create or replace) a file. -/
def fsWrite (fs : Fs) (path : String) (content : String) : Fs :=
  (path, content) :: fs

/-- The checkpoint path of `DreamGroupingService`. -/
def progressPath : String := "grouping_progress.json"

/-- A completed `save_progress`: the file holds the full serialization. -/
def saveProgressRun (groups : List Cluster) (groupedIds : List String)
    (timestamp : String) (fs : Fs) : Fs :=
  fsWrite fs progressPath (serializeProgress groups groupedIds timestamp)

/-- Every filesystem state reachable if the process dies during
`save_progress`: before the open, or after the truncating open with any
prefix (0 … all) of the serialized data flushed. -/
def saveProgressCrashStates (groups : List Cluster) (groupedIds : List String)
    (timestamp : String) (fs : Fs) : List Fs :=
  let s := serializeProgress groups groupedIds timestamp
  fs :: (List.range (s.length + 1)).map (fun k => fsWrite fs progressPath (s.take k))

/-! ## Clustering (`process_all_dreams.py`, `group_similar_dreams`) -/

/-- A loaded dream record after Stage 1: post id and normalized phrase
(`load_dreams` + `normalize_dreams`). -/
structure DRecord where
  post_id : String
  normalized : String
deriving DecidableEq, Repr

/-- `f"group_{n:05d}"`-style zero padding. -/
def pad5 (n : Nat) : String :=
  let s := toString n
  ⟨List.replicate (5 - s.length) '0'⟩ ++ s

/-- `exact_groups[normalized].append(dream)` on one record: insertion-order
preserving bucket update keyed by the normalized phrase. -/
def insertBucket : List (String × List String) → String → String →
    List (String × List String)
  | [], key, pid => [(key, [pid])]
  | (k, ps) :: t, key, pid =>
    if k == key then (k, ps ++ [pid]) :: t
    else (k, ps) :: insertBucket t key pid

/-- The exact-match pass over all records: records with a falsy
(`None`/empty) normalized phrase are skipped, the rest grouped by
byte-identical normalized phrase in first-seen order. -/
def buildBuckets (records : List DRecord) : List (String × List String) :=
  records.foldl
    (fun acc r => if r.normalized ≠ "" then insertBucket acc r.normalized r.post_id
                  else acc) []

/-- Turn the buckets into `Cluster` values with running `group_#####` ids
(`len(groups)+1` counter). -/
def bucketsToClusters : Nat → List (String × List String) → List Cluster
  | _, [] => []
  | n, (k, ps) :: t =>
    ⟨"group_" ++ pad5 (n + 1), k, ps, ps.length⟩ :: bucketsToClusters (n + 1) t

/-- The exact pass of `group_similar_dreams` (lines 74–99). -/
def exactPass (records : List DRecord) : List Cluster :=
  bucketsToClusters 0 (buildBuckets records)

/-- Merge group `j` into group `i` and remove group `j`:
`groups[i]['members'].extend(groups[j]['members'])`,
`member_count = len(members)`, `groups.pop(j)`. -/
def mergeAt (gs : List Cluster) (i j : Nat) : List Cluster :=
  let gi := gs.getD i default
  let gj := gs.getD j default
  let gi' : Cluster :=
    { gi with members := gi.members ++ gj.members,
              member_count := (gi.members ++ gj.members).length }
  (gs.set i gi').eraseIdx j

/-- The inner loop `for j in range(i + 1, min(i + 50, len(groups)))` with
its `if j >= len(groups): break` re-validation; `jEnd` is the range bound
computed once at loop entry. -/
def innerLoop (sim : String → String → Bool) (gs : List Cluster) (i : Nat) :
    Nat → Nat → List Cluster
  | j, jEnd =>
    if j ≥ jEnd then gs
    else if j ≥ gs.length then gs
    else if sim (gs.getD i default).representative
               (gs.getD j default).representative then
      innerLoop sim (mergeAt gs i j) i (j + 1) jEnd
    else innerLoop sim gs i (j + 1) jEnd
termination_by j jEnd => jEnd - j

/-- The outer loop `for i in range(len(groups))` with its
`if i >= len(groups): break` re-validation; `iEnd` is `len(groups)` at
entry.  Also returns, in order, the id of every cluster that served as a
comparison base. -/
def outerLoopT (sim : String → String → Bool) :
    List Cluster → Nat → Nat → List Cluster × List String
  | gs, i, iEnd =>
    if i ≥ iEnd then (gs, [])
    else if i ≥ gs.length then (gs, [])
    else
      let gs' := innerLoop sim gs i (i + 1) (min (i + 50) gs.length)
      let rec' := outerLoopT sim gs' (i + 1) iEnd
      (rec'.1, (gs.getD i default).id :: rec'.2)
termination_by _ i iEnd => iEnd - i

/-- The merge pass of `group_similar_dreams` (lines 105–130). -/
def mergePass (sim : String → String → Bool) (gs : List Cluster) : List Cluster :=
  (outerLoopT sim gs 0 gs.length).1

/-- The comparison bases considered by the merge pass, in order. -/
def mergeTrace (sim : String → String → Bool) (gs : List Cluster) : List String :=
  (outerLoopT sim gs 0 gs.length).2

/-- Stage 2 (`group_similar_dreams`): exact pass then merge pass. -/
def groupSimilarDreams (sim : String → String → Bool)
    (records : List DRecord) : List Cluster :=
  mergePass sim (exactPass records)

/-- Concatenation of all clusters' member lists. -/
def allMembers : List Cluster → List String
  | [] => []
  | c :: t => c.members ++ allMembers t

/-! ## step1_normalize.py: checkpointed batches with resume

One execution of the script processes at most `batch_size = 10` records
starting from the checkpointed `last_index`, rewrites the entire results
file, and checkpoints the new index.  A later execution loads the
checkpoint and the results file and continues.  The service call
`norm : String → Option String` is the deterministic oracle stub
(`None` for a null return), consumed as
`dream['normalized'] = norm if norm else dream['title'].lower()`. -/

/-- The terminal value stored for one record by `step1_normalize.py`. -/
def normOne (norm : String → Option String) (t : String) : String :=
  match norm t with
  | some s => if s == "" then pyToLower t else s
  | none => pyToLower t

/-- The per-run processing loop `for i in range(start_index, end_index)`:
returns the updated results list and the list of processed indices. -/
def processRange (f : String → String) (titles : List String)
    (cur : List (Option String)) : Nat → Nat → List (Option String) × List Nat
  | s, e =>
    if s ≥ e then (cur, [])
    else
      let cur' := cur.set s (some (f (titles.getD s "")))
      let rec' := processRange f titles cur' (s + 1) e
      (rec'.1, s :: rec'.2)
termination_by s e => e - s

/-- One execution of `step1_normalize.py`.  `st` is the on-disk state:
`none` when no checkpoint exists, otherwise the saved results list and
`last_index`.  Returns the new on-disk state and the processed indices. -/
def runOnce (f : String → String) (titles : List String)
    (st : Option (List (Option String) × Nat)) :
    (List (Option String) × Nat) × List Nat :=
  let total := titles.length
  let start := match st with | none => 0 | some (_, k) => k
  let base : List (Option String) := List.replicate total none
  let dreams1 := match st with
    | some (prev, k) => if 0 < k then prev.take k ++ base.drop k else base
    | none => base
  let e := min (start + 10) total
  let pr := processRange f titles dreams1 start e
  ((pr.1, e), pr.2)

/-- `m` consecutive executions of the script from on-disk state `st`:
final state plus the concatenated processed-index trace. -/
def runsFrom (f : String → String) (titles : List String)
    (st : Option (List (Option String) × Nat)) :
    Nat → Option (List (Option String) × Nat) × List Nat
  | 0 => (st, [])
  | m + 1 =>
    let r := runOnce f titles st
    let rest := runsFrom f titles (some r.1) m
    (rest.1, r.2 ++ rest.2)

/-- Concatenation of all buckets' member lists. -/
def bucketIds : List (String × List String) → List String
  | [] => []
  | (_, ps) :: t => ps ++ bucketIds t

/-- The persisted `normalized_dreams.json` list once exactly the first `n`
records are processed: terminal values for the first `n` titles, `None`
for the rest. -/
def prefixState (f : String → String) (titles : List String) (n : Nat) :
    List (Option String) :=
  (titles.take n).map (fun t => some (f t)) ++
    List.replicate (titles.length - n) none

/-! ## step3_similarity.py: batched merge over `groups.json`

One execution loads `groups.json` (step2's output — the same file every
run), sorts it by representative, processes the batch
`[last_index, min(last_index+20, len))` marking merges with in-place
flags, filters the flagged groups out, writes the result to
`groups_merged.json` — which no later run ever reads back — and
checkpoints the new index.  Deletion is deferred: the list never shrinks
during the loops, groups are only flagged `to_delete`. -/

/-- Python `s.split()` with no argument: split on whitespace runs,
dropping empty pieces. -/
def pyWordsAux : List Char → List Char → List String
  | [], acc => if acc.isEmpty then [] else [⟨acc.reverse⟩]
  | c :: rest, acc =>
    if pyWsChar c then
      if acc.isEmpty then pyWordsAux rest []
      else ⟨acc.reverse⟩ :: pyWordsAux rest []
    else pyWordsAux rest (c :: acc)

/-- Python `s.split()`. -/
def pyWords (s : String) : List String :=
  pyWordsAux s.data []

/-- A group record as loaded by `step3_similarity.py` from `groups.json`:
representative, members, maintained `member_count`, and the in-memory
`merged` / `to_delete` flags (absent in the file, i.e. initially false;
`g.get('to_delete')` treats absence as false). -/
structure Step3Group where
  representative : String
  members : List String
  member_count : Nat
  merged : Bool
  to_delete : Bool
deriving DecidableEq, Repr

instance : Inhabited Step3Group := ⟨⟨"", [], 0, false, false⟩⟩

/-- Stable insertion keyed by the representative: the new group goes after
every group whose key is less than or equal, as Python's stable
`list.sort(key=...)` orders equal keys. -/
def insertByRep (g : Step3Group) : List Step3Group → List Step3Group
  | [] => [g]
  | h :: t =>
    if strLe h.representative g.representative then h :: insertByRep g t
    else g :: h :: t

/-- `groups.sort(key=lambda g: g['representative'])`. -/
def sortByRep (gs : List Step3Group) : List Step3Group :=
  gs.foldl (fun acc g => insertByRep g acc) []

/-- The inner window loop of `step3_similarity.py` (lines 45–68):
`for j in range(i+1, min(i+10, len(groups)))` with its
`if j >= len(groups): break` guard; the first-3-letters-of-first-words
prefilter `continue`s past clearly unrelated pairs; on a positive
similarity verdict base `i` absorbs group `j`'s members and group `j` is
flagged `to_delete` — the list itself never shrinks here.
`GroqService.check_similarity` cannot raise (`call_api` catches every
exception), so the surrounding `try/except: pass` is inert and the
similarity oracle is total.  The fuel argument equals `jEnd - j`, so fuel
exhaustion coincides exactly with the `j >= jEnd` exit. -/
def step3InnerAux (sim : String → String → Bool) (i : Nat) :
    Nat → List Step3Group → Nat → Nat → List Step3Group
  | 0, gs, _, _ => gs
  | fuel + 1, gs, j, jEnd =>
    if j ≥ jEnd then gs
    else if j ≥ gs.length then gs
    else
      let gi := gs.getD i default
      let gj := gs.getD j default
      let skip :=
        match pyWords gi.representative, pyWords gj.representative with
        | w1 :: _, w2 :: _ => decide (w1.data.take 3 ≠ w2.data.take 3)
        | _, _ => false
      if skip then step3InnerAux sim i fuel gs (j + 1) jEnd
      else if sim gi.representative gj.representative then
        let gi' : Step3Group :=
          { gi with members := gi.members ++ gj.members,
                    member_count := (gi.members ++ gj.members).length,
                    merged := true }
        let gj' : Step3Group := { gj with to_delete := true }
        step3InnerAux sim i fuel ((gs.set i gi').set j gj') (j + 1) jEnd
      else step3InnerAux sim i fuel gs (j + 1) jEnd

/-- The inner window loop, fuel instantiated to its exact trip count. -/
def step3Inner (sim : String → String → Bool) (gs : List Step3Group)
    (i j jEnd : Nat) : List Step3Group :=
  step3InnerAux sim i (jEnd - j) gs j jEnd

/-- The batch loop `for i in range(start_index, end_index)` with its
`if i >= len(groups): break` guard (fuel equals `iEnd - i`). -/
def step3BatchAux (sim : String → String → Bool) :
    Nat → List Step3Group → Nat → Nat → List Step3Group
  | 0, gs, _, _ => gs
  | fuel + 1, gs, i, iEnd =>
    if i ≥ iEnd then gs
    else if i ≥ gs.length then gs
    else step3BatchAux sim fuel
      (step3Inner sim gs i (i + 1) (min (i + 10) gs.length)) (i + 1) iEnd

/-- The batch loop over `[s, e)`. -/
def step3Batch (sim : String → String → Bool) (gs : List Step3Group)
    (s e : Nat) : List Step3Group :=
  step3BatchAux sim (e - s) gs s e

/-- One execution of `step3_similarity.py`: load and sort `groups.json`,
process the batch `[last_index, min(last_index+20, len))`, drop the
groups flagged `to_delete`, write the result to `groups_merged.json`
(never read back by a later run), checkpoint the end index. -/
def step3RunOnce (sim : String → String → Bool)
    (groupsFile : List Step3Group) (ckpt : Nat) : List Step3Group × Nat :=
  let gs := sortByRep groupsFile
  let e := min (ckpt + 20) gs.length
  (((step3Batch sim gs ckpt e).filter (fun g => !g.to_delete)), e)

/-- The same merge loop executed over the whole sorted group list in a
single uninterrupted pass. -/
def step3Uninterrupted (sim : String → String → Bool)
    (groupsFile : List Step3Group) : List Step3Group :=
  let gs := sortByRep groupsFile
  (step3Batch sim gs 0 gs.length).filter (fun g => !g.to_delete)

/-- Three groups sharing a first word, with an oracle that judges both the
first and the second similar to the third. -/
def step3ThreeGroups : List Step3Group :=
  [⟨"aaa 00", ["a"], 1, false, false⟩,
   ⟨"aaa 01", ["b"], 1, false, false⟩,
   ⟨"aaa 02", ["c"], 1, false, false⟩]

/-- Oracle for `step3ThreeGroups`. -/
def step3PairSim (x y : String) : Bool :=
  (x == "aaa 00" || x == "aaa 01") && y == "aaa 02"

/-- Twenty-one groups — one more than a 20-element batch — whose only
similar pair sits inside the first batch. -/
def step3ManyGroups : List Step3Group :=
  [⟨"aaa 00", ["m00"], 1, false, false⟩,
   ⟨"aaa 01", ["m01"], 1, false, false⟩,
   ⟨"aaa 02", ["m02"], 1, false, false⟩,
   ⟨"aaa 03", ["m03"], 1, false, false⟩,
   ⟨"aaa 04", ["m04"], 1, false, false⟩,
   ⟨"aaa 05", ["m05"], 1, false, false⟩,
   ⟨"aaa 06", ["m06"], 1, false, false⟩,
   ⟨"aaa 07", ["m07"], 1, false, false⟩,
   ⟨"aaa 08", ["m08"], 1, false, false⟩,
   ⟨"aaa 09", ["m09"], 1, false, false⟩,
   ⟨"aaa 10", ["m10"], 1, false, false⟩,
   ⟨"aaa 11", ["m11"], 1, false, false⟩,
   ⟨"aaa 12", ["m12"], 1, false, false⟩,
   ⟨"aaa 13", ["m13"], 1, false, false⟩,
   ⟨"aaa 14", ["m14"], 1, false, false⟩,
   ⟨"aaa 15", ["m15"], 1, false, false⟩,
   ⟨"aaa 16", ["m16"], 1, false, false⟩,
   ⟨"aaa 17", ["m17"], 1, false, false⟩,
   ⟨"aaa 18", ["m18"], 1, false, false⟩,
   ⟨"aaa 19", ["m19"], 1, false, false⟩,
   ⟨"aaa 20", ["m20"], 1, false, false⟩]

/-- Oracle for `step3ManyGroups`: only the first two groups are similar. -/
def step3ManySim (x y : String) : Bool :=
  x == "aaa 00" && y == "aaa 01"

/-! ## Theorems -/

/-- C9, counterexample.  The claim also covers
`DreamGroupingService.normalize_dream` (lines 44–49): for the ASCII title
`"Become A Doctor"` that client takes the non-Hebrew shortcut —
lower-case and strip, no `"to "` prefix, no oracle call — and returns
`"become a doctor"`, not the claimed `"to become a doctor"`. -/
theorem claim9_counterexample :
    (dgNormalize (fun _ => .error ()) [] "Become A Doctor").1 =
      "become a doctor" ∧
    (dgNormalize (fun _ => .error ()) [] "Become A Doctor").2.2 = 0 ∧
    ("become a doctor" : String) ≠ "to become a doctor" := by
  decide

/-- C9, amended.  Fallback determinism: with an oracle that always raises,
`GroqService.create_taxonomy("become a youtuber")` returns the
Career/Digital Creator/Social Media taxonomy and
`GroqService.normalize_dream("Become A Doctor")` returns exactly
`"to become a doctor"`; `DreamGroupingService.normalize_dream` instead
returns `"become a doctor"` for the same title — its non-Hebrew shortcut
lower-cases and strips without adding the `"to "` prefix and without
invoking the oracle at all. -/
theorem claim9_fallback_determinism :
    gsCreateTaxonomy (fun _ => .error ()) "become a youtuber" =
      ⟨"Career", "Digital Creator", "Social Media"⟩ ∧
    gsNormalizeDream (fun _ => .error ()) "Become A Doctor" =
      some "to become a doctor" ∧
    (dgNormalize (fun _ => .error ()) [] "Become A Doctor").1 =
      "become a doctor" ∧
    (dgNormalize (fun _ => .error ()) [] "Become A Doctor").2.2 = 0 := by
  decide

/-- C1, counterexample.  The claim says any oracle exception leads to the
deterministic non-null fallback for every raw title; but for a
Hebrew-script title, `GroqService.normalize_dream` returns `None` when the
oracle raises (`call_api` turns the exception into `""`, and the empty-
response branch returns `None` for Hebrew input). -/
theorem claim1_counterexample :
    hasHebrew "א" = true ∧ gsNormalizeDream (fun _ => .error ()) "א" = none := by
  decide

/-- C1, amended.  `GroqService.normalize_dream` applies the deterministic
fallback (lower-cased stripped title, `"to "`-prefixed if absent) on
empty/failed oracle output only for non-Hebrew titles; for Hebrew titles
with empty/failed oracle output — and for empty titles — it returns
`None` instead. -/
theorem claim1_amended_fallback (title response : String) :
    (pyStripWs title = "" → normalizeGS title response = none) ∧
    (pyStripWs title ≠ "" → hasHebrew title = true → emptyResp response = true →
      normalizeGS title response = none) ∧
    (pyStripWs title ≠ "" → hasHebrew title = false → emptyResp response = true →
      normalizeGS title response = some (gsFallback title)) := by
  have hstrip_empty : pyStripWs "" = "" := rfl
  refine ⟨fun h => ?_, fun h1 h2 h3 => ?_, fun h1 h2 h3 => ?_⟩
  · unfold normalizeGS
    simp [h]
  · have ht : title ≠ "" := fun he => h1 (he ▸ hstrip_empty)
    unfold normalizeGS
    simp [ht, h1, h2, h3]
  · have ht : title ≠ "" := fun he => h1 (he ▸ hstrip_empty)
    unfold normalizeGS
    simp [ht, h1, h2, h3]

/-- C1, witness for the amended theorem at a concrete English title with an
empty oracle response. -/
theorem claim1_witness :
    (pyStripWs "Dream Big" ≠ "" ∧ hasHebrew "Dream Big" = false ∧
      emptyResp "" = true) ∧
    normalizeGS "Dream Big" "" = some (gsFallback "Dream Big") ∧
    gsFallback "Dream Big" = "to dream big" :=
  ⟨⟨by decide, by decide, by decide⟩,
   (claim1_amended_fallback "Dream Big" "").2.2 (by decide) (by decide) (by decide),
   by decide⟩

/-- C4, counterexample.  The claim says `classify` returns three non-empty
levels for every input; but the accepted pipe pattern `[A-Za-z\s]+`
admits whitespace-only segments, which `strip()` turns into empty levels:
an oracle response of `" | | "` yields an all-empty taxonomy. -/
theorem claim4_counterexample :
    createTaxonomyGS "become strong" " | | " = ⟨"", "", ""⟩ := by
  decide

/-- C4, amended.  `create_taxonomy` always returns three levels, and
whenever the oracle response matches neither the pipe pattern nor the
category-lines recovery branch (in particular whenever the response is
empty or the oracle raised), the keyword fallback guarantees all three
levels non-empty for every input phrase; a whitespace-only pipe response,
however, produces empty levels. -/
theorem claim4_amended_totality (phrase response : String)
    (h1 : taxSearch response.data = none)
    (h2 : ["career", "personal", "health", "travel"].any
      (strContains (pyToLower response)) = false) :
    (createTaxonomyGS phrase response).level1 ≠ "" ∧
    (createTaxonomyGS phrase response).level2 ≠ "" ∧
    (createTaxonomyGS phrase response).level3 ≠ "" := by
  have hf : createTaxonomyGS phrase response = fallbackTaxonomyGS phrase := by
    unfold createTaxonomyGS
    by_cases hr : response = ""
    · simp [hr]
    · simp [hr, h1, h2]
  rw [hf]
  unfold fallbackTaxonomyGS
  dsimp only
  split
  · exact ⟨by decide, by decide, by decide⟩
  · split
    · exact ⟨by decide, by decide, by decide⟩
    · split
      · exact ⟨by decide, by decide, by decide⟩
      · split
        · exact ⟨by decide, by decide, by decide⟩
        · split
          · exact ⟨by decide, by decide, by decide⟩
          · split
            · exact ⟨by decide, by decide, by decide⟩
            · exact ⟨by decide, by decide, by decide⟩

/-- C4, witness for the amended theorem: empty oracle response, arbitrary
phrase. -/
theorem claim4_witness :
    (taxSearch "".data = none ∧
      (["career", "personal", "health", "travel"].any
        (strContains (pyToLower ""))) = false) ∧
    (createTaxonomyGS "rule the world" "").level1 ≠ "" ∧
    (createTaxonomyGS "rule the world" "").level2 ≠ "" ∧
    (createTaxonomyGS "rule the world" "").level3 ≠ "" :=
  ⟨⟨by decide, by decide⟩,
   claim4_amended_totality "rule the world" "" (by decide) (by decide)⟩

/-- C5, counterexample.  The claim says both equivalence clients treat any
oracle answer starting with `"y"` (after trimming and lower-casing) as
`true`; but `GroqService.check_similarity` demands the substring `"yes"`
and the absence of `"no"`, so the bare answer `"y"` yields `false`. -/
theorem claim5_counterexample :
    startsWithS (pyToLower (pyStripWs "y")) "y" = true ∧
    gsCheckSimilarity "a" "b" "y" = false := by
  decide

/-- C5, amended.  Byte-identical phrases short-circuit to `true` with no
oracle call in both clients.  On distinct phrases (and a cache miss),
`DreamGroupingService.check_similarity` returns `true` exactly when the
trimmed, lower-cased oracle answer starts with `"y"` and returns `false`
on an oracle exception; `GroqService.check_similarity` instead returns
`true` exactly when the lower-cased answer contains `"yes"` and does not
contain `"no"`. -/
theorem claim5_amended_parse (oracle : String → String → Except Unit String)
    (g : Oracle) (cache : List ((String × String) × Bool))
    (p1 p2 resp : String)
    (hcs : simCacheLookup cache (dgSimKey p1 p1) = none)
    (hcd : simCacheLookup cache (dgSimKey p1 p2) = none)
    (hne : p1 ≠ p2) :
    dgCheckSimilarity oracle cache p1 p1 =
      (true, (dgSimKey p1 p1, true) :: cache, 0) ∧
    (oracle p1 p2 = .ok resp →
      (dgCheckSimilarity oracle cache p1 p2).1 =
        startsWithS (pyToLower (pyStripWs resp)) "y") ∧
    (oracle p1 p2 = .error () →
      dgCheckSimilarity oracle cache p1 p2 = (false, cache, 1)) ∧
    gsCheckSimilarityC g p1 p1 = (true, 0) ∧
    (gsCheckSimilarityC g p1 p2).1 =
      (strContains (pyToLower (gsCallApi g (p1 ++ "|" ++ p2))) "yes" &&
        !strContains (pyToLower (gsCallApi g (p1 ++ "|" ++ p2))) "no") := by
  refine ⟨?_, fun hok => ?_, fun herr => ?_, ?_, ?_⟩
  · unfold dgCheckSimilarity
    simp [hcs]
  · unfold dgCheckSimilarity
    simp [hcd, hne, hok]
  · unfold dgCheckSimilarity
    simp [hcd, hne, herr]
  · unfold gsCheckSimilarityC
    simp
  · unfold gsCheckSimilarityC gsCheckSimilarity
    simp [hne]

/-- C5, witness for the amended theorem at concrete phrases, an empty
cache, and an oracle answering `"Yes."`. -/
theorem claim5_witness :
    (simCacheLookup [] (dgSimKey "a" "a") = none ∧
      simCacheLookup [] (dgSimKey "a" "b") = none ∧ "a" ≠ "b" ∧
      (fun _ _ => (Except.ok "Yes." : Except Unit String)) "a" "b" = .ok "Yes.") ∧
    (dgCheckSimilarity (fun _ _ => .ok "Yes.") [] "a" "b").1 =
      startsWithS (pyToLower (pyStripWs "Yes.")) "y" :=
  ⟨⟨by decide, by decide, by decide, rfl⟩,
   (claim5_amended_parse (fun _ _ => .ok "Yes.") (fun _ => .ok "") [] "a" "b" "Yes."
     (by decide) (by decide) (by decide)).2.1 rfl⟩

/-- C8, counterexample.  The claim says the oracle is invoked at most once
per distinct raw phrase per run; but the exception fallback of
`DreamGroupingService.normalize_dream` is not cached, so with an oracle
that always raises, normalizing the same Hebrew phrase twice invokes the
oracle twice. -/
theorem claim8_counterexample :
    (dgNormalizeTwice (fun _ => .error ()) "א").2.2 = 2 := by
  decide

/-- C8, amended.  Normalizing the same raw phrase twice in one run with a
deterministic oracle yields byte-identical output, and when the oracle
call does not raise the cache confines the run to at most one oracle
invocation for that phrase; an exception fallback is not cached and a
later duplicate re-invokes the oracle. -/
theorem claim8_amended_idempotent (oracle : Oracle) (title : String) :
    (dgNormalizeTwice oracle title).1 = (dgNormalizeTwice oracle title).2.1 ∧
    ((∀ e : Unit, oracle title ≠ .error e) →
      (dgNormalizeTwice oracle title).2.2 ≤ 1) := by
  unfold dgNormalizeTwice dgNormalize
  have hnil : cacheLookup ([] : List (String × String)) title = none := rfl
  rw [hnil]
  by_cases hheb : hasHebrew title
  · simp only [hheb, Bool.not_true, Bool.false_eq_true, if_false]
    cases hor : oracle title with
    | ok resp =>
      have : cacheLookup [(title, dgClean resp)] title = some (dgClean resp) := by
        simp [cacheLookup]
      simp [this]
    | error e =>
      constructor
      · simp [hnil, hheb]
      · intro h
        exact absurd rfl (h e)
  · have hheb' : hasHebrew title = false := by simpa using hheb
    simp only [hheb', Bool.not_false, if_true]
    have : cacheLookup [(title, pyStripWs (pyToLower title))] title =
        some (pyStripWs (pyToLower title)) := by
      simp [cacheLookup]
    simp [this]

/-- C8, witness for the amended theorem: a Hebrew phrase and an oracle
that succeeds deterministically. -/
theorem claim8_witness :
    (∀ e : Unit, (fun _ : String => (Except.ok "shalom" : Except Unit String)) "א" ≠ .error e) ∧
    (dgNormalizeTwice (fun _ => .ok "shalom") "א").1 =
      (dgNormalizeTwice (fun _ => .ok "shalom") "א").2.1 ∧
    (dgNormalizeTwice (fun _ => .ok "shalom") "א").2.2 ≤ 1 :=
  ⟨fun _ h => Except.noConfusion h,
   (claim8_amended_idempotent (fun _ => .ok "shalom") "א").1,
   (claim8_amended_idempotent (fun _ => .ok "shalom") "א").2
     (fun _ h => Except.noConfusion h)⟩

/-- Stripping one leading `"to "` leaves a phrase that still starts with
`"to "` exactly when the original started with a doubled `"to to "`. -/
theorem isPrefixOf_to_strip (l : List Char) :
    (['t', 'o', ' '].isPrefixOf
        (if ['t', 'o', ' '].isPrefixOf l then l.drop 3 else l)) =
      ['t', 'o', ' ', 't', 'o', ' '].isPrefixOf l := by
  match l with
  | [] => rfl
  | [a] => simp [List.isPrefixOf]
  | [a, b] => simp [List.isPrefixOf]
  | a :: b :: c :: rest =>
    have hdrop : List.drop 3 (a :: b :: c :: rest) = rest := rfl
    simp only [List.isPrefixOf, hdrop]
    cases hb1 : (('t' == a : Bool)) <;> cases hb2 : (('o' == b : Bool)) <;>
      cases hb3 : ((' ' == c : Bool)) <;> simp [List.isPrefixOf, hb1, hb2, hb3]

/-- String-level version of `isPrefixOf_to_strip` for the cleaning of
`DreamGroupingService.normalize_dream`. -/
theorem startsWith_after_strip (s : String) :
    startsWithS (dgClean s) "to " = startsWithS (dgCleanBase s) "to to " := by
  unfold dgClean startsWithS dropS
  dsimp only
  rw [apply_ite String.data]
  exact isPrefixOf_to_strip (dgCleanBase s).data

/-- C10, counterexample.  The claim says the phrase cached by
`DreamGroupingService.normalize_dream` for a successfully translated
Hebrew title never begins with `"to "`; but when the cleaned oracle
response begins with a doubled `"to to "`, only one copy is stripped and
the cached phrase still begins with `"to "`. -/
theorem claim10_counterexample :
    hasHebrew "א" = true ∧
    (dgNormalize (fun _ => .ok "to to fly") [] "א").1 = "to fly" ∧
    startsWithS "to fly" "to " = true := by
  decide

/-- C10, amended.  For a Hebrew title with a cache miss and a successful
oracle call, `DreamGroupingService.normalize_dream` returns the cleaned
response with exactly one leading `"to "` stripped, so its output begins
with `"to "` exactly when the cleaned response began with `"to to "`; for
a typical single-`"to "` response such as `"to fly"` it caches `"fly"`,
the opposite canonical form from `GroqService.normalize_dream`, which
returns `"to fly"` for the same title and response. -/
theorem claim10_amended (oracle : Oracle) (cache : List (String × String))
    (title resp : String)
    (hheb : hasHebrew title = true)
    (hmiss : cacheLookup cache title = none)
    (hok : oracle title = .ok resp) :
    (dgNormalize oracle cache title).1 = dgClean resp ∧
    startsWithS (dgClean resp) "to " = startsWithS (dgCleanBase resp) "to to " ∧
    (dgNormalize (fun _ => Except.ok "to fly")
      ([] : List (String × String)) "א").1 = "fly" ∧
    normalizeGS "א" "to fly" = some "to fly" := by
  refine ⟨?_, startsWith_after_strip resp, by decide, by decide⟩
  unfold dgNormalize
  simp [hmiss, hheb, hok]

/-- C10, witness for the amended theorem at a concrete Hebrew title and
the oracle response `"to fly"`. -/
theorem claim10_witness :
    (hasHebrew "א" = true ∧
      cacheLookup ([] : List (String × String)) "א" = none ∧
      (fun _ : String => (Except.ok "to fly" : Except Unit String)) "א" =
        .ok "to fly") ∧
    (dgNormalize (fun _ => .ok "to fly") [] "א").1 = dgClean "to fly" ∧
    dgClean "to fly" = "fly" :=
  ⟨⟨by decide, rfl, rfl⟩,
   (claim10_amended (fun _ => .ok "to fly") [] "א" "to fly"
     (by decide) rfl rfl).1,
   by decide⟩

/-- C6, counterexample.  The claim says a crash mid-write never leaves a
checkpoint that is present yet not a fully written state; but
`save_progress` opens the target with mode `'w'` (truncating in place,
no temporary file, no rename), so a crash after the open can leave the
checkpoint present with a strict prefix of the serialization — neither
the old complete state nor the new one. -/
theorem claim6_counterexample :
    ((saveProgressCrashStates [] [] "0"
        [(progressPath, serializeProgress [] [] "9")]).any
      (fun c =>
        !(fsRead c progressPath == some (serializeProgress [] [] "9")) &&
        !(fsRead c progressPath == some (serializeProgress [] [] "0")) &&
        !(fsRead c progressPath == none))) = true := by
  decide

/-- C6, amended.  `save_progress` does rewrite the entire current
collection on every call — after an uninterrupted save the checkpoint
holds the full serialization of the complete in-memory state, whatever
was previously on disk — but it writes directly to the target path, so
crash atomicity (temp-then-rename) does not hold. -/
theorem claim6_amended_full_write (groups : List Cluster) (ids : List String)
    (ts : String) (fs : Fs) :
    fsRead (saveProgressRun groups ids ts fs) progressPath =
      some (serializeProgress groups ids ts) := by
  unfold saveProgressRun fsRead fsWrite
  simp [List.find?]

/-! ### List lemmas for the merge pass -/

theorem take_set_of_le {α : Type} :
    ∀ (l : List α) (i k : Nat) (x : α), k ≤ i → (l.set i x).take k = l.take k := by
  intro l
  induction l with
  | nil => intro i k x _; simp
  | cons a t ih =>
    intro i k x hk
    cases i with
    | zero =>
      cases k with
      | zero => simp
      | succ k => omega
    | succ i =>
      cases k with
      | zero => simp
      | succ k =>
        simp only [List.set_cons_succ, List.take_succ_cons]
        rw [ih i k x (by omega)]

theorem take_eraseIdx_of_le {α : Type} :
    ∀ (l : List α) (j k : Nat), k ≤ j → (l.eraseIdx j).take k = l.take k := by
  intro l
  induction l with
  | nil => intro j k _; simp
  | cons a t ih =>
    intro j k hk
    cases j with
    | zero =>
      cases k with
      | zero => simp
      | succ k => omega
    | succ j =>
      cases k with
      | zero => simp
      | succ k =>
        simp [List.eraseIdx_cons_succ, List.take_succ_cons, ih j k (by omega)]

theorem getD_eraseIdx_of_lt {α : Type} (d : α) :
    ∀ (l : List α) (i j : Nat), i < j → (l.eraseIdx j).getD i d = l.getD i d := by
  intro l
  induction l with
  | nil => intro i j _; simp
  | cons a t ih =>
    intro i j hij
    cases j with
    | zero => omega
    | succ j =>
      cases i with
      | zero => simp [List.eraseIdx_cons_succ]
      | succ i =>
        simp only [List.eraseIdx_cons_succ, List.getD_cons_succ]
        exact ih i j (by omega)

theorem getD_set_self {α : Type} (d : α) :
    ∀ (l : List α) (i : Nat) (x : α), i < l.length → (l.set i x).getD i d = x := by
  intro l
  induction l with
  | nil => intro i x h; simp at h
  | cons a t ih =>
    intro i x h
    cases i with
    | zero => simp
    | succ i =>
      simp only [List.set_cons_succ, List.getD_cons_succ]
      exact ih i x (by simpa using h)

theorem getD_take_of_lt {α : Type} (d : α) :
    ∀ (l : List α) (m i : Nat), i < m → (l.take m).getD i d = l.getD i d := by
  intro l
  induction l with
  | nil => intro m i _; simp
  | cons a t ih =>
    intro m i him
    cases m with
    | zero => omega
    | succ m =>
      cases i with
      | zero => simp
      | succ i =>
        simp only [List.take_succ_cons, List.getD_cons_succ]
        exact ih m i (by omega)

theorem mergeAt_length (gs : List Cluster) (i j : Nat) (hj : j < gs.length) :
    (mergeAt gs i j).length = gs.length - 1 := by
  unfold mergeAt
  dsimp only
  rw [List.length_eraseIdx]
  simp [hj]

theorem mergeAt_take (gs : List Cluster) (i j k : Nat) (hk : k ≤ i) (hij : i < j) :
    (mergeAt gs i j).take k = gs.take k := by
  unfold mergeAt
  dsimp only
  rw [take_eraseIdx_of_le _ j k (by omega), take_set_of_le _ i k _ hk]

theorem mergeAt_id (gs : List Cluster) (i j : Nat) (hij : i < j) (hj : j < gs.length) :
    ((mergeAt gs i j).getD i default).id = (gs.getD i default).id := by
  unfold mergeAt
  dsimp only
  rw [getD_eraseIdx_of_lt _ _ i j hij, getD_set_self _ _ i _ (by simpa using lt_trans hij hj)]

theorem mergeAt_cons (g : Cluster) (t : List Cluster) (i j : Nat) :
    mergeAt (g :: t) (i + 1) (j + 1) = g :: mergeAt t i j := by
  unfold mergeAt
  simp [List.getD_cons_succ, List.set_cons_succ, List.eraseIdx_cons_succ]

theorem allMembers_eraseIdx :
    ∀ (t : List Cluster) (j : Nat), j < t.length →
      ((t.getD j default).members ++ allMembers (t.eraseIdx j)).Perm (allMembers t) := by
  intro t
  induction t with
  | nil => intro j hj; simp at hj
  | cons c t ih =>
    intro j hj
    cases j with
    | zero => simp [allMembers]
    | succ j =>
      have hj' : j < t.length := by simpa using hj
      simp only [List.getD_cons_succ, List.eraseIdx_cons_succ, allMembers]
      have h1 : ((t.getD j default).members ++ (c.members ++ allMembers (t.eraseIdx j))) =
          (((t.getD j default).members ++ c.members) ++ allMembers (t.eraseIdx j)) := by
        rw [List.append_assoc]
      rw [h1]
      have h2 := (@List.perm_append_comm _
        (t.getD j default).members c.members).append_right
          (allMembers (t.eraseIdx j))
      refine h2.trans ?_
      rw [List.append_assoc]
      exact (ih j hj').append_left c.members

theorem allMembers_mergeAt :
    ∀ (i : Nat) (gs : List Cluster) (j : Nat), i < j → j < gs.length →
      (allMembers (mergeAt gs i j)).Perm (allMembers gs) := by
  intro i
  induction i with
  | zero =>
    intro gs j h0j hj
    cases gs with
    | nil => simp at hj
    | cons g t =>
      cases j with
      | zero => omega
      | succ j =>
        have hj' : j < t.length := by simpa using hj
        unfold mergeAt
        simp only [List.getD_cons_zero, List.getD_cons_succ, List.set_cons_zero,
          List.eraseIdx_cons_succ, allMembers]
        rw [List.append_assoc]
        exact (allMembers_eraseIdx t j hj').append_left g.members
  | succ i ih =>
    intro gs j hij hj
    cases gs with
    | nil => simp at hj
    | cons g t =>
      cases j with
      | zero => omega
      | succ j =>
        rw [mergeAt_cons]
        simp only [allMembers]
        exact (ih t j (by omega) (by simpa using hj)).append_left g.members

/-- Invariants of the inner merge loop: the multiset of all member ids is
preserved, the list never grows, positions before the base index `i` are
untouched, and the base cluster keeps its position and id. -/
theorem innerLoop_spec (sim : String → String → Bool) :
    ∀ (d : Nat) (gs : List Cluster) (i j jEnd : Nat), jEnd - j ≤ d → i < j →
      (allMembers (innerLoop sim gs i j jEnd)).Perm (allMembers gs) ∧
      (innerLoop sim gs i j jEnd).length ≤ gs.length ∧
      ((innerLoop sim gs i j jEnd).take i = gs.take i) ∧
      (i < gs.length → i < (innerLoop sim gs i j jEnd).length ∧
        ((innerLoop sim gs i j jEnd).getD i default).id =
          (gs.getD i default).id) := by
  intro d
  induction d with
  | zero =>
    intro gs i j jEnd hd hij
    rw [innerLoop]
    rw [if_pos (by omega : j ≥ jEnd)]
    exact ⟨.refl _, le_refl _, rfl, fun h => ⟨h, rfl⟩⟩
  | succ d ih =>
    intro gs i j jEnd hd hij
    rw [innerLoop]
    by_cases h1 : j ≥ jEnd
    · rw [if_pos h1]
      exact ⟨.refl _, le_refl _, rfl, fun h => ⟨h, rfl⟩⟩
    · rw [if_neg h1]
      by_cases h2 : j ≥ gs.length
      · rw [if_pos h2]
        exact ⟨.refl _, le_refl _, rfl, fun h => ⟨h, rfl⟩⟩
      · rw [if_neg h2]
        have hj : j < gs.length := by omega
        by_cases h3 : sim (gs.getD i default).representative
            (gs.getD j default).representative
        · rw [if_pos h3]
          have hlen : (mergeAt gs i j).length = gs.length - 1 :=
            mergeAt_length gs i j hj
          obtain ⟨p1, p2, p3, p4⟩ :=
            ih (mergeAt gs i j) i (j + 1) jEnd (by omega) (by omega)
          refine ⟨p1.trans (allMembers_mergeAt i gs j hij hj), by omega, ?_, ?_⟩
          · rw [p3, mergeAt_take gs i j i (le_refl i) hij]
          · intro hi
            obtain ⟨q1, q2⟩ := p4 (by omega)
            exact ⟨q1, by rw [q2, mergeAt_id gs i j hij hj]⟩
        · rw [if_neg h3]
          exact ih gs i (j + 1) jEnd (by omega) (by omega)

/-- Invariants of the outer merge loop: positions before the loop counter
are never touched again, the list never grows, the recorded comparison
bases are exactly the surviving clusters from position `i` on (in order),
and the multiset of member ids is preserved. -/
theorem outerLoopT_spec (sim : String → String → Bool) :
    ∀ (d : Nat) (gs : List Cluster) (i iEnd : Nat), iEnd - i ≤ d →
      gs.length ≤ iEnd →
      ((outerLoopT sim gs i iEnd).1.take i = gs.take i) ∧
      ((outerLoopT sim gs i iEnd).1.length ≤ gs.length) ∧
      ((outerLoopT sim gs i iEnd).2 =
        ((outerLoopT sim gs i iEnd).1.drop i).map (fun c => c.id)) ∧
      (allMembers (outerLoopT sim gs i iEnd).1).Perm (allMembers gs) := by
  intro d
  induction d with
  | zero =>
    intro gs i iEnd hd hle
    rw [outerLoopT]
    rw [if_pos (by omega : i ≥ iEnd)]
    refine ⟨rfl, le_refl _, ?_, .refl _⟩
    show ([] : List String) = (gs.drop i).map (fun c => c.id)
    rw [List.drop_eq_nil_of_le (by omega)]
    rfl
  | succ d ih =>
    intro gs i iEnd hd hle
    rw [outerLoopT]
    by_cases h1 : i ≥ iEnd
    · rw [if_pos h1]
      refine ⟨rfl, le_refl _, ?_, .refl _⟩
      show ([] : List String) = (gs.drop i).map (fun c => c.id)
      rw [List.drop_eq_nil_of_le (by omega)]
      rfl
    · rw [if_neg h1]
      by_cases h2 : i ≥ gs.length
      · rw [if_pos h2]
        refine ⟨rfl, le_refl _, ?_, .refl _⟩
        show ([] : List String) = (gs.drop i).map (fun c => c.id)
        rw [List.drop_eq_nil_of_le (by omega)]
        rfl
      · rw [if_neg h2]
        have hi : i < gs.length := by omega
        obtain ⟨iperm, ilen, itake, iid⟩ :=
          innerLoop_spec sim (min (i + 50) gs.length) gs i (i + 1)
            (min (i + 50) gs.length) (by omega) (by omega)
        obtain ⟨hgt, hid⟩ := iid hi
        set gs' := innerLoop sim gs i (i + 1) (min (i + 50) gs.length) with hgs'
        obtain ⟨ftake, flen, ftrace, fperm⟩ :=
          ih gs' (i + 1) iEnd (by omega) (by omega)
        set F := (outerLoopT sim gs' (i + 1) iEnd).1 with hF
        dsimp only
        have hFlen : i + 1 ≤ F.length := by
          have h := congrArg List.length ftake
          simp only [List.length_take] at h
          omega
        have hFgetD : F.getD i default = gs'.getD i default := by
          have h := congrArg (fun l => l.getD i default) ftake
          dsimp only at h
          rwa [getD_take_of_lt _ F (i + 1) i (by omega),
            getD_take_of_lt _ gs' (i + 1) i (by omega)] at h
        refine ⟨?_, by omega, ?_, fperm.trans iperm⟩
        · have h := congrArg (fun l => l.take i) ftake
          dsimp only at h
          simp only [List.take_take, min_eq_left (by omega : i ≤ i + 1)] at h
          rw [h, itake]
        · have hdrop : F.drop i = F.getD i default :: F.drop (i + 1) := by
            rw [List.drop_eq_getElem_cons (by omega : i < F.length)]
            congr 1
            rw [List.getD_eq_getElem?_getD, List.getElem?_eq_getElem (by omega)]
            rfl
          rw [hdrop]
          simp only [List.map_cons]
          rw [← ftrace, hFgetD, hid]

/-- C3.  The merge pass tolerates the shrinking cluster list (bounds are
re-checked on every iteration — this is what makes `outerLoopT` total and
the spec lemmas hold), and the comparison bases it records are exactly
the surviving clusters, in order: every surviving cluster is considered
exactly once as a base, none is skipped, none is processed twice. -/
theorem claim3_merge_bases (sim : String → String → Bool) (gs : List Cluster) :
    mergeTrace sim gs = (mergePass sim gs).map (fun c => c.id) := by
  have h := (outerLoopT_spec sim gs.length gs 0 gs.length (by omega)
    (le_refl _)).2.2.1
  unfold mergeTrace mergePass
  rwa [List.drop_zero] at h

theorem bucketIds_insertBucket (bs : List (String × List String))
    (key pid : String) :
    (bucketIds (insertBucket bs key pid)).Perm (bucketIds bs ++ [pid]) := by
  induction bs with
  | nil => simp [insertBucket, bucketIds]
  | cons b t ih =>
    obtain ⟨k, ps⟩ := b
    unfold insertBucket
    by_cases hk : k == key
    · rw [if_pos hk]
      simp only [bucketIds]
      rw [List.append_assoc, List.append_assoc]
      exact (@List.perm_append_comm _ [pid] (bucketIds t)).append_left ps
    · rw [if_neg hk]
      simp only [bucketIds]
      refine (ih.append_left ps).trans ?_
      rw [List.append_assoc]

theorem buildBuckets_perm :
    ∀ (records : List DRecord) (acc : List (String × List String)),
      (∀ r ∈ records, r.normalized ≠ "") →
      (bucketIds (records.foldl
        (fun acc r => if r.normalized ≠ "" then
          insertBucket acc r.normalized r.post_id else acc) acc)).Perm
        (bucketIds acc ++ records.map (fun r => r.post_id)) := by
  intro records
  induction records with
  | nil => intro acc _; simp
  | cons r t ih =>
    intro acc h
    have hr : r.normalized ≠ "" := h r (by simp)
    simp only [List.foldl_cons, if_pos hr, List.map_cons]
    refine (ih (insertBucket acc r.normalized r.post_id)
      (fun x hx => h x (by simp [hx]))).trans ?_
    refine ((bucketIds_insertBucket acc r.normalized r.post_id).append_right _).trans ?_
    rw [List.append_assoc]
    exact .refl _

theorem allMembers_bucketsToClusters :
    ∀ (n : Nat) (bs : List (String × List String)),
      allMembers (bucketsToClusters n bs) = bucketIds bs := by
  intro n bs
  induction bs generalizing n with
  | nil => rfl
  | cons b t ih =>
    obtain ⟨k, ps⟩ := b
    simp [bucketsToClusters, allMembers, bucketIds, ih]

theorem mem_allMembers {pid : String} :
    ∀ {gs : List Cluster}, pid ∈ allMembers gs ↔ ∃ c ∈ gs, pid ∈ c.members := by
  intro gs
  induction gs with
  | nil => simp [allMembers]
  | cons c t ih => simp [allMembers, ih, List.mem_append, or_and_right, exists_or]

theorem countP_clusters_eq_one :
    ∀ (gs : List Cluster) (pid : String),
      (allMembers gs).Nodup → pid ∈ allMembers gs →
      gs.countP (fun c => decide (pid ∈ c.members)) = 1 := by
  intro gs
  induction gs with
  | nil => intro pid _ hm; simp [allMembers] at hm
  | cons c t ih =>
    intro pid hnd hm
    simp only [allMembers] at hnd hm
    rw [List.nodup_append] at hnd
    obtain ⟨_, hnd2, hdisj⟩ := hnd
    by_cases hc : pid ∈ c.members
    · rw [List.countP_cons_of_pos _ _ (by simpa using hc)]
      have hzero : t.countP (fun c => decide (pid ∈ c.members)) = 0 := by
        rw [List.countP_eq_zero]
        intro c' hc'
        simp only [decide_eq_true_eq]
        intro hpc'
        exact hdisj hc (mem_allMembers.mpr ⟨c', hc', hpc'⟩)
      omega
    · rw [List.countP_cons_of_neg _ _ (by simpa using hc)]
      refine ih pid hnd2 ?_
      rw [List.mem_append] at hm
      tauto

/-- C2, counterexample.  The claim also covers the batched merge loop of
`step3_similarity.py` (lines 40–71), and there the partition fails:
deletion is deferred through `to_delete` flags, so a flagged group is
still read as a merge source by later bases within the same batch.  With
three groups whose third is judged similar to both the first and the
second, the third group's member `"c"` ends up in the member sets of two
distinct surviving groups. -/
theorem claim2_counterexample :
    (step3Uninterrupted step3PairSim step3ThreeGroups).countP
      (fun g => decide ("c" ∈ g.members)) = 2 := by
  decide

/-- C2, amended.  Partition invariant for `group_similar_dreams`
(`process_all_dreams.py`): for records with non-null normalized phrases
and distinct post ids (which is what the pipeline feeds in), after the
exact pass and the merge pass the member ids of the produced clusters are
a permutation of the input ids — no record lost, none duplicated — and
every id lies in the member set of exactly one surviving cluster.  The
deferred-deletion batch loop of `step3_similarity.py` does not preserve
the partition: a group can be absorbed by two surviving bases. -/
theorem claim2_partition (sim : String → String → Bool) (records : List DRecord)
    (hne : ∀ r ∈ records, r.normalized ≠ "")
    (hnd : (records.map (fun r => r.post_id)).Nodup) :
    (allMembers (groupSimilarDreams sim records)).Perm
      (records.map (fun r => r.post_id)) ∧
    ∀ pid ∈ records.map (fun r => r.post_id),
      (groupSimilarDreams sim records).countP
        (fun c => decide (pid ∈ c.members)) = 1 := by
  have hperm : (allMembers (groupSimilarDreams sim records)).Perm
      (records.map (fun r => r.post_id)) := by
    unfold groupSimilarDreams mergePass
    refine ((outerLoopT_spec sim (exactPass records).length (exactPass records)
      0 (exactPass records).length (by omega) (le_refl _)).2.2.2).trans ?_
    unfold exactPass buildBuckets
    rw [allMembers_bucketsToClusters]
    simpa using buildBuckets_perm records [] hne
  refine ⟨hperm, fun pid hpid => ?_⟩
  exact countP_clusters_eq_one _ pid (hperm.nodup_iff.mpr hnd)
    (hperm.mem_iff.mpr hpid)

/-- C2, witness at a concrete record list and an all-true similarity
oracle. -/
theorem claim2_witness :
    (∀ r ∈ ([⟨"1", "a"⟩, ⟨"2", "a"⟩, ⟨"3", "b"⟩] : List DRecord),
      r.normalized ≠ "") ∧
    (([⟨"1", "a"⟩, ⟨"2", "a"⟩, ⟨"3", "b"⟩] : List DRecord).map
      (fun r => r.post_id)).Nodup ∧
    ((allMembers (groupSimilarDreams (fun _ _ => true)
        [⟨"1", "a"⟩, ⟨"2", "a"⟩, ⟨"3", "b"⟩])).Perm
      (([⟨"1", "a"⟩, ⟨"2", "a"⟩, ⟨"3", "b"⟩] : List DRecord).map
        (fun r => r.post_id)) ∧
     ∀ pid ∈ ([⟨"1", "a"⟩, ⟨"2", "a"⟩, ⟨"3", "b"⟩] : List DRecord).map
        (fun r => r.post_id),
      (groupSimilarDreams (fun _ _ => true)
        [⟨"1", "a"⟩, ⟨"2", "a"⟩, ⟨"3", "b"⟩]).countP
        (fun c => decide (pid ∈ c.members)) = 1) :=
  ⟨by decide, by decide,
   claim2_partition (fun _ _ => true) _ (by decide) (by decide)⟩

/-! ### step1_normalize.py: resume lemmas -/

theorem set_append_of_length_eq {α : Type} (a b : List α) (n : Nat) (x : α)
    (h : a.length = n) : (a ++ b).set n x = a ++ b.set 0 x := by
  subst h
  induction a with
  | nil => rfl
  | cons y t ih => simp [List.set_cons_succ, ih]

theorem prefixState_set (f : String → String) (titles : List String) (n : Nat)
    (hn : n < titles.length) :
    (prefixState f titles n).set n (some (f (titles.getD n ""))) =
      prefixState f titles (n + 1) := by
  unfold prefixState
  rw [set_append_of_length_eq _ _ n _
    (by simp [List.length_take]; omega)]
  have h1 : titles.length - n = (titles.length - (n + 1)) + 1 := by omega
  rw [h1, List.replicate_succ, List.set_cons_zero, List.take_succ,
    List.getElem?_eq_getElem hn]
  have hgetD : titles.getD n "" = titles[n] := by
    rw [List.getD_eq_getElem?_getD, List.getElem?_eq_getElem hn]
    rfl
  rw [hgetD]
  simp only [Option.toList_some, List.map_append, List.map_cons, List.map_nil,
    List.append_assoc, List.cons_append, List.nil_append]

theorem processRange_spec (f : String → String) (titles : List String) :
    ∀ (d s e : Nat), e - s ≤ d → s ≤ e → e ≤ titles.length →
      processRange f titles (prefixState f titles s) s e =
        (prefixState f titles e, List.range' s (e - s)) := by
  intro d
  induction d with
  | zero =>
    intro s e hd hse hle
    rw [processRange]
    rw [if_pos (by omega : s ≥ e)]
    have hse' : s = e := by omega
    subst hse'
    simp
  | succ d ih =>
    intro s e hd hse hle
    rw [processRange]
    by_cases h : s ≥ e
    · rw [if_pos h]
      have hse' : s = e := by omega
      subst hse'
      simp
    · rw [if_neg h]
      dsimp only
      rw [prefixState_set f titles s (by omega)]
      rw [ih (s + 1) e (by omega) (by omega) hle]
      dsimp only
      have h2 : e - s = (e - (s + 1)) + 1 := by omega
      rw [h2, List.range'_succ]

theorem runOnce_spec (f : String → String) (titles : List String) (n : Nat)
    (hn : n ≤ titles.length) :
    runOnce f titles (some (prefixState f titles n, n)) =
      ((prefixState f titles (min (n + 10) titles.length),
        min (n + 10) titles.length),
       List.range' n (min (n + 10) titles.length - n)) := by
  unfold runOnce
  dsimp only
  have hdreams :
      (if 0 < n then
        (prefixState f titles n).take n ++
          (List.replicate titles.length (none : Option String)).drop n
      else List.replicate titles.length none) = prefixState f titles n := by
    by_cases hn0 : 0 < n
    · rw [if_pos hn0]
      unfold prefixState
      rw [List.take_left' (by simp [List.length_take]; omega),
        List.drop_replicate]
    · rw [if_neg hn0]
      have : n = 0 := by omega
      subst this
      unfold prefixState
      simp
  rw [hdreams]
  rw [processRange_spec f titles (min (n + 10) titles.length) n
    (min (n + 10) titles.length) (by omega) (by omega) (by omega)]

theorem range'_glue (s e1 e2 : Nat) (h1 : s ≤ e1) (h2 : e1 ≤ e2) :
    List.range' s (e1 - s) ++ List.range' e1 (e2 - e1) =
      List.range' s (e2 - s) := by
  have base := List.range'_append_1 s (e1 - s) (e2 - e1)
  rw [(by omega : s + (e1 - s) = e1)] at base
  rw [(by omega : (e2 - e1) + (e1 - s) = e2 - s)] at base
  exact base

theorem runsFrom_spec (f : String → String) (titles : List String) :
    ∀ (m n : Nat), n ≤ titles.length →
      runsFrom f titles (some (prefixState f titles n, n)) m =
        (some (prefixState f titles (min (n + 10 * m) titles.length),
           min (n + 10 * m) titles.length),
         List.range' n (min (n + 10 * m) titles.length - n)) := by
  intro m
  induction m with
  | zero =>
    intro n hn
    rw [runsFrom]
    have h1 : min (n + 10 * 0) titles.length = n := by omega
    rw [h1]
    simp
  | succ m ih =>
    intro n hn
    rw [runsFrom]
    rw [runOnce_spec f titles n hn]
    dsimp only
    rw [ih (min (n + 10) titles.length) (by omega)]
    dsimp only
    have h1 : min (min (n + 10) titles.length + 10 * m) titles.length =
        min (n + 10 * (m + 1)) titles.length := by omega
    rw [h1]
    rw [range'_glue n (min (n + 10) titles.length)
      (min (n + 10 * (m + 1)) titles.length) (by omega) (by omega)]

theorem runOnce_none_eq (f : String → String) (titles : List String) :
    runOnce f titles none = runOnce f titles (some (prefixState f titles 0, 0)) := by
  unfold runOnce
  dsimp only
  rfl

theorem runsFrom_none_eq (f : String → String) (titles : List String) :
    ∀ (m : Nat), 0 < m → runsFrom f titles none m =
      runsFrom f titles (some (prefixState f titles 0, 0)) m := by
  intro m hm
  cases m with
  | zero => omega
  | succ m =>
    rw [runsFrom, runsFrom]
    rw [runOnce_none_eq]

theorem prefixState_full (f : String → String) (titles : List String) :
    prefixState f titles titles.length = titles.map (fun t => some (f t)) := by
  unfold prefixState
  simp

/-- C7, counterexample.  The claim also covers the checkpoint resume of
`step3_similarity.py` (lines 12–79), and there resume correctness fails:
every run reloads `groups.json` and writes its merges only to
`groups_merged.json`, which no later run reads back.  With twenty-one
groups (one more than a batch) whose only similar pair lies in the first
batch, the resumed execution's final output keeps all 21 groups — the
first batch's merge is discarded — while the uninterrupted pass over the
same data yields 20. -/
theorem claim7_counterexample :
    (step3RunOnce step3ManySim step3ManyGroups
      (step3RunOnce step3ManySim step3ManyGroups 0).2).1.length = 21 ∧
    (step3Uninterrupted step3ManySim step3ManyGroups).length = 20 ∧
    (step3RunOnce step3ManySim step3ManyGroups
      (step3RunOnce step3ManySim step3ManyGroups 0).2).1 ≠
      step3Uninterrupted step3ManySim step3ManyGroups := by
  decide

/-- C7, amended.  Resume correctness for `step1_normalize.py` (where the
results file is rewritten in full and reloaded on restart): run the
script `k` times from scratch (so
`n = min (10·k) total` records are processed and checkpointed), terminate,
and restart for `m` more runs (enough to finish).  The continuation
processes exactly the indices `n, n+1, …, total−1` — each remaining
record once, none re-scheduled — and the final persisted results list is
`titles.map (some ∘ normOne norm)`, independent of `k`: byte-identical to
an uninterrupted run (the case `k = 0`). -/
theorem claim7_resume (norm : String → Option String) (titles : List String)
    (k m : Nat) (hm0 : 0 < m) (hm : titles.length ≤ 10 * m) :
    (runsFrom (normOne norm) titles
      (runsFrom (normOne norm) titles none k).1 m).1 =
      some (titles.map (fun t => some (normOne norm t)), titles.length) ∧
    (runsFrom (normOne norm) titles
      (runsFrom (normOne norm) titles none k).1 m).2 =
      List.range' (min (10 * k) titles.length)
        (titles.length - min (10 * k) titles.length) := by
  set f := normOne norm with hf
  cases k with
  | zero =>
    have hst : (runsFrom f titles none 0).1 = none := rfl
    rw [hst, runsFrom_none_eq f titles m hm0,
      runsFrom_spec f titles m 0 (by omega)]
    have h1 : min (0 + 10 * m) titles.length = titles.length := by omega
    rw [h1, prefixState_full]
    have h2 : min (10 * 0) titles.length = 0 := by omega
    rw [h2]
    exact ⟨rfl, rfl⟩
  | succ k =>
    have hst : (runsFrom f titles none (k + 1)).1 =
        some (prefixState f titles (min (10 * (k + 1)) titles.length),
          min (10 * (k + 1)) titles.length) := by
      rw [runsFrom_none_eq f titles (k + 1) (by omega),
        runsFrom_spec f titles (k + 1) 0 (by omega)]
      have h0 : 0 + 10 * (k + 1) = 10 * (k + 1) := by omega
      rw [h0]
    rw [hst, runsFrom_spec f titles m (min (10 * (k + 1)) titles.length)
      (by omega)]
    have h1 : min (min (10 * (k + 1)) titles.length + 10 * m) titles.length =
        titles.length := by omega
    rw [h1, prefixState_full]
    exact ⟨rfl, rfl⟩

/-- C7, witness: three titles, a deterministic service stub, interruption
after zero runs (`k = 0`) and one completing run. -/
theorem claim7_witness :
    (0 < 1 ∧ (["A", "B", "C"] : List String).length ≤ 10 * 1) ∧
    (runsFrom (normOne (fun t => some ("to " ++ t))) ["A", "B", "C"]
      (runsFrom (normOne (fun t => some ("to " ++ t))) ["A", "B", "C"] none 0).1
        1).1 =
      some ((["A", "B", "C"] : List String).map
        (fun t => some (normOne (fun t => some ("to " ++ t)) t)),
        (["A", "B", "C"] : List String).length) ∧
    (runsFrom (normOne (fun t => some ("to " ++ t))) ["A", "B", "C"]
      (runsFrom (normOne (fun t => some ("to " ++ t))) ["A", "B", "C"] none 0).1
        1).2 =
      List.range' (min (10 * 0) (["A", "B", "C"] : List String).length)
        ((["A", "B", "C"] : List String).length -
          min (10 * 0) (["A", "B", "C"] : List String).length) :=
  ⟨⟨by decide, by decide⟩,
   (claim7_resume (fun t => some ("to " ++ t)) ["A", "B", "C"] 0 1
     (by decide) (by decide)).1,
   (claim7_resume (fun t => some ("to " ++ t)) ["A", "B", "C"] 0 1
     (by decide) (by decide)).2⟩
